import Mathlib

/-!
# Verification of the dotenvx resolution engine (`Run`) and helpers

Shallow embedding of the repository's core:

* `src/lib/services/run.js` (the `Run` class, provided as `src/unnamed/part_000`):
  source-plan building (`_determineEnvs`), the per-source handlers
  (`_injectEnv`, `_injectEnvFile`, `_injectEnvVaultFile`), vault key rotation
  (`_dotenvKeys`, `_decrypted` and the rotation loop), and the run loop.
* `src/lib/helpers/truncate.js` (`truncate`).

JavaScript strings are modelled as `List Char` (`JSStr`); JS objects used as
string-keyed maps are association lists (`EnvMap`) where assignment updates the
first matching key in place; JS `Set` is a deduplicating insertion-ordered
list (`addSet`).  External collaborators that the engine calls but whose code
is out of scope (the dotenv parser, the decryptor, `parseDecryptEvalExpand`,
`parseEnvironmentFromDotenvKey`, the private-key resolver, the file system and
`path.resolve`) are fields of an oracle record `Ext`, universally quantified
in the theorems.  Exceptions are `Except ErrInfo`; a handler body that the
source wraps in `try/catch` returns `St` (total), while errors the source
`throw`s out of the handler propagate as `Except.error`.
-/

namespace Dx

abbrev JSStr := List Char

/-- Coerce a Lean string literal to the `List Char` model of JS strings. -/
def jstr (s : String) : JSStr := s.data

/-- JS `String.prototype.split(',')`: split on every comma; `''` yields `['']`. -/
def splitComma : JSStr → List JSStr
  | [] => [[]]
  | c :: rest =>
    let r := splitComma rest
    if c = ',' then [] :: r
    else
      match r with
      | [] => [[c]]
      | h :: t => (c :: h) :: t

/-- JS `String.prototype.trim()`: strip leading and trailing whitespace. -/
def trimChars (s : JSStr) : JSStr :=
  ((s.dropWhile Char.isWhitespace).reverse.dropWhile Char.isWhitespace).reverse

/-- JS `String.prototype.startsWith(p)` on the model strings. -/
def startsWithKey : JSStr → JSStr → Bool
  | _, [] => true
  | [], _ :: _ => false
  | c :: s, d :: p => c = d && startsWithKey s p

/-- A JS `Error` with its optional machine-readable `code` and its `message`. -/
structure ErrInfo where
  code : Option JSStr
  message : JSStr
deriving DecidableEq, Repr

/-- A JS object used as a string-keyed map, e.g. `process.env` or a parsed file. -/
abbrev EnvMap := List (JSStr × JSStr)

/-- JS property read `m[key]`: the first binding of `key`, if any. -/
def lookup : EnvMap → JSStr → Option JSStr
  | [], _ => none
  | (k, v) :: rest, key => if k = key then some v else lookup rest key

/-- JS property write `m[key] = val`: update the binding in place, else append. -/
def setKey : EnvMap → JSStr → JSStr → EnvMap
  | [], key, val => [(key, val)]
  | (k, v) :: rest, key, val =>
    if k = key then (k, val) :: rest else (k, v) :: setKey rest key val

/-- JS `Set.prototype.add`: insertion-ordered, deduplicating. -/
def addSet (l : List JSStr) (x : JSStr) : List JSStr :=
  if x ∈ l then l else l ++ [x]

/-- The three source-descriptor type tags `TYPE_ENV`, `TYPE_ENV_FILE`,
`TYPE_ENV_VAULT_FILE` of run.js. -/
inductive EnvType
  | env
  | envFile
  | envVaultFile
deriving DecidableEq, Repr

/-- A source descriptor `{ type, value }` as built by the caller or by
`_determineEnvs`. -/
structure EnvDescriptor where
  type : EnvType
  value : JSStr
deriving DecidableEq, Repr

/-- `DEFAULT_ENVS` of run.js. -/
def DEFAULT_ENVS : List EnvDescriptor := [{ type := .envFile, value := jstr ".env" }]

/-- `DEFAULT_ENV_VAULTS` of run.js. -/
def DEFAULT_ENV_VAULTS : List EnvDescriptor :=
  [{ type := .envVaultFile, value := jstr ".env.vault" }]

/-- One Processed-Source Record (`row` in run.js); fields a handler did not
assign stay `none`. -/
structure Row where
  type : EnvType
  string : Option JSStr := none
  filepath : Option JSStr := none
  parsed : Option EnvMap := none
  warnings : Option (List JSStr) := none
  injected : Option EnvMap := none
  preExisted : Option EnvMap := none
  error : Option ErrInfo := none
deriving DecidableEq, Repr

/-- The external collaborators of `Run`, out of scope for the core
(spec §1, §6): file system (`none` models `ENOENT`/non-existence),
`path.resolve`, `parseDecryptEvalExpand` (parse + decrypt + expand, returning
parsed mapping and warnings, or throwing), `decrypt(ciphertext, key)`,
`parseEnvironmentFromDotenvKey`, `dotenv.parse`, the private-key resolver
chain `_determinePrivateKey`, and `guessPrivateKeyFilename`. -/
structure Ext where
  fsRead : JSStr → Option JSStr
  resolve : JSStr → JSStr
  parseDecryptEvalExpand : JSStr → Option JSStr → EnvMap → Except ErrInfo (EnvMap × List JSStr)
  decrypt : JSStr → JSStr → Except ErrInfo JSStr
  parseEnvironmentFromDotenvKey : JSStr → Except ErrInfo JSStr
  dotenvParse : JSStr → EnvMap
  determinePrivateKey : JSStr → Option JSStr
  guessPrivateKeyFilename : JSStr → JSStr

/-- The mutable state of one `Run` instance: the target namespace
(`this.processEnv`) and the accumulators. -/
structure St where
  processEnv : EnvMap
  processedEnvs : List Row
  readableFilepaths : List JSStr
  readableStrings : List JSStr
  uniqueInjectedKeys : List JSStr
deriving DecidableEq, Repr

/-- Modelled from the spec: the Injector helper `inject`
(`src/lib/helpers/inject.js`) is not under `src/`; only its call sites in
run.js are.  Spec §4.1: for each key of the resolved mapping, if the key is
absent from the ambient namespace, or present but overwrite is true, set it on
the target namespace and record it under `injected`; otherwise leave the
target untouched and record the existing value under `preExisted`.  In the
engine the target namespace and the ambient namespace are the same evolving
process-wide map (spec §3, §5: one shared Target Namespace, expansion and
presence checks see values injected by earlier sources), so the model passes
a single map and returns `(new namespace, injected, preExisted)`. -/
def inject (target : EnvMap) (parsed : EnvMap) (overload : Bool) :
    EnvMap × EnvMap × EnvMap :=
  match parsed with
  | [] => (target, [], [])
  | (k, v) :: rest =>
    match lookup target k with
    | none =>
      let r := inject (setKey target k v) rest overload
      (r.1, (k, v) :: r.2.1, r.2.2)
    | some old =>
      if overload then
        let r := inject (setKey target k v) rest overload
        (r.1, (k, v) :: r.2.1, r.2.2)
      else
        let r := inject target rest overload
        (r.1, r.2.1, (k, old) :: r.2.2)

/-- run.js constructor line 25: the ambient names starting with
`DOTENV_PRIVATE_KEY`. -/
def dotenvPrivateKeyNames (processEnv : EnvMap) : List JSStr :=
  (processEnv.map Prod.fst).filter (fun k => startsWithKey k (jstr "DOTENV_PRIVATE_KEY"))

/-- run.js `_determineEnvsFromDotenvPrivateKey`. -/
def determineEnvsFromDotenvPrivateKey (ext : Ext) (names : List JSStr) :
    List EnvDescriptor :=
  names.map (fun n => { type := .envFile, value := ext.guessPrivateKeyFilename n })

/-- run.js `_determineEnvs` (lines 204-246). -/
def determineEnvs (ext : Ext) (names : List JSStr) (envs : List EnvDescriptor)
    (DOTENV_KEY : JSStr) : List EnvDescriptor :=
  if envs.length ≤ 0 then
    if names.length > 0 then
      determineEnvsFromDotenvPrivateKey ext names
    else if DOTENV_KEY.length > 0 then
      DEFAULT_ENV_VAULTS
    else
      DEFAULT_ENVS
  else
    let fileAlreadySpecified := envs.any (fun e =>
      (decide (DOTENV_KEY.length > 0) && decide (e.type = .envVaultFile)) ||
      (decide (DOTENV_KEY.length ≤ 0) && decide (e.type = .envFile)))
    if fileAlreadySpecified then
      envs
    else if DOTENV_KEY.length > 0 then
      DEFAULT_ENV_VAULTS ++ envs
    else
      DEFAULT_ENVS ++ envs

/-- run.js `_dotenvKeys` (lines 250-252): split the master secret on commas. -/
def dotenvKeys (DOTENV_KEY : JSStr) : List JSStr := splitComma DOTENV_KEY

/-- run.js `_decrypted` (lines 260-274): resolve the environment from the key,
look the ciphertext up under `DOTENV_VAULT_<ENV-UPPERCASED>` (a missing or
falsy entry is the distinguished `NOT_FOUND_DOTENV_ENVIRONMENT` error), then
decrypt. -/
def decrypted (ext : Ext) (dotenvKey : JSStr) (parsedVault : EnvMap) :
    Except ErrInfo JSStr :=
  match ext.parseEnvironmentFromDotenvKey dotenvKey with
  | .error e => .error e
  | .ok environment =>
    let environmentKey := jstr "DOTENV_VAULT_" ++ environment.map Char.toUpper
    let ciphertext := (lookup parsedVault environmentKey).getD []
    if ciphertext.length = 0 then
      .error { code := some (jstr "NOT_FOUND_DOTENV_ENVIRONMENT"),
               message := jstr "NOT_FOUND_DOTENV_ENVIRONMENT: cannot locate environment "
                 ++ environmentKey ++ jstr " in your .env.vault file" }
    else
      ext.decrypt ciphertext dotenvKey

/-- run.js `_injectEnvVaultFile` rotation loop (lines 153-167): for each key
in order, trim it and attempt `_decrypted`; the first success breaks the loop;
a failure on the last key is rethrown (all earlier failures are swallowed).
The `[]` case is unreachable: `splitComma` never returns an empty list. -/
def tryKeys (ext : Ext) (parsedVault : EnvMap) : List JSStr → Except ErrInfo JSStr
  | [] => .error { code := none, message := jstr "unreachable: dotenvKeys is never empty" }
  | [k] => decrypted ext (trimChars k) parsedVault
  | k :: k2 :: rest =>
    match decrypted ext (trimChars k) parsedVault with
    | .ok d => .ok d
    | .error _ => tryKeys ext parsedVault (k2 :: rest)

/-- The rotation loop with the trimming hoisted out: each key is used as
given.  `tryKeys = tryKeysNoTrim` on the element-wise trimmed list. -/
def tryKeysNoTrim (ext : Ext) (parsedVault : EnvMap) : List JSStr → Except ErrInfo JSStr
  | [] => .error { code := none, message := jstr "unreachable: dotenvKeys is never empty" }
  | [k] => decrypted ext k parsedVault
  | k :: k2 :: rest =>
    match decrypted ext k parsedVault with
    | .ok d => .ok d
    | .error _ => tryKeysNoTrim ext parsedVault (k2 :: rest)

/-- The shared tail of the three handlers (run.js lines 75-81, 105-111,
175-181): inject the parsed mapping into the target namespace, record
`parsed`/`warnings`/`injected`/`preExisted` on the row, union the injected
keys into `uniqueInjectedKeys`, and append the row. -/
def recordInject (st : St) (overload : Bool) (row : Row) (parsed : EnvMap)
    (warnings : List JSStr) : St :=
  let r := inject st.processEnv parsed overload
  let row := { row with parsed := some parsed, warnings := some warnings,
                        injected := some r.2.1, preExisted := some r.2.2 }
  { st with processEnv := r.1,
            uniqueInjectedKeys :=
              List.foldl addSet st.uniqueInjectedKeys (r.2.1.map Prod.fst),
            processedEnvs := st.processedEnvs ++ [row] }

/-- run.js `_injectEnv` (lines 64-87): parse/decrypt/expand the inline string;
on failure record the error on the row (the whole body is inside `try/catch`,
so this handler never throws); on success note the readable string and inject. -/
def injectEnv (ext : Ext) (overload : Bool) (st : St) (env : JSStr) : St :=
  let row : Row := { type := .env, string := some env }
  match ext.parseDecryptEvalExpand env none st.processEnv with
  | .error e =>
    { st with processedEnvs := st.processedEnvs ++ [{ row with error := some e }] }
  | .ok (parsed, warnings) =>
    let st := { st with readableStrings := addSet st.readableStrings env }
    recordInject st overload row parsed warnings

/-- The distinguished error built at run.js lines 113-116 when reading an env
file raises `ENOENT`: code `MISSING_ENV_FILE`, message carrying the given
path and the resolved path. -/
def missingEnvFileError (envFilepath filepath : JSStr) : ErrInfo :=
  { code := some (jstr "MISSING_ENV_FILE"),
    message := jstr "missing " ++ envFilepath ++ jstr " file (" ++ filepath ++ jstr ")" }

/-- run.js `_injectEnvFile` (lines 89-124): resolve and read the file; a
missing file (`ENOENT`) becomes the distinguished `MISSING_ENV_FILE` error
carrying the attempted path; any parse/expand failure is recorded; the handler
never throws. -/
def injectEnvFile (ext : Ext) (overload : Bool) (st : St) (envFilepath : JSStr) : St :=
  let row : Row := { type := .envFile, filepath := some envFilepath }
  let filepath := ext.resolve envFilepath
  match ext.fsRead filepath with
  | none =>
    let error : ErrInfo := missingEnvFileError envFilepath filepath
    { st with processedEnvs := st.processedEnvs ++ [{ row with error := some error }] }
  | some src =>
    let st := { st with readableFilepaths := addSet st.readableFilepaths envFilepath }
    let privateKey := ext.determinePrivateKey envFilepath
    match ext.parseDecryptEvalExpand src privateKey st.processEnv with
    | .error e =>
      { st with processedEnvs := st.processedEnvs ++ [{ row with error := some e }] }
    | .ok (parsed, warnings) =>
      recordInject st overload row parsed warnings

/-- run.js `_injectEnvVaultFile` lines 150-186, after the two fatal presence
checks: split the master secret, parse the vault container, rotate through
the keys (a failure of the last key is rethrown and aborts the run), then
parse/expand the decrypted plaintext inside `try/catch` like the other
handlers. -/
def vaultDecryptPhase (ext : Ext) (overload : Bool) (DOTENV_KEY : JSStr) (st : St)
    (row : Row) (src : JSStr) : Except ErrInfo St :=
  let keys := dotenvKeys DOTENV_KEY
  let parsedVault := ext.dotenvParse src
  match tryKeys ext parsedVault keys with
  | .error e => .error e
  | .ok decryptedSrc =>
    .ok (match ext.parseDecryptEvalExpand decryptedSrc none st.processEnv with
      | .error e =>
        { st with processedEnvs := st.processedEnvs ++ [{ row with error := some e }] }
      | .ok (parsed, warnings) =>
        recordInject st overload row parsed warnings)

/-- run.js `_injectEnvVaultFile` (lines 126-187): note the filepath as
readable (line 132, before any check), then the two fatal checks — a missing
vault file throws `MISSING_ENV_VAULT_FILE`, a blank (length-zero) master
secret throws `MISSING_DOTENV_KEY` — then the rotation/parse phase. -/
def injectEnvVaultFile (ext : Ext) (overload : Bool) (DOTENV_KEY : JSStr) (st : St)
    (envVaultFilepath : JSStr) : Except ErrInfo St :=
  let row : Row := { type := .envVaultFile, filepath := some envVaultFilepath }
  let filepath := ext.resolve envVaultFilepath
  let st := { st with readableFilepaths := addSet st.readableFilepaths envVaultFilepath }
  match ext.fsRead filepath with
  | none =>
    .error { code := some (jstr "MISSING_ENV_VAULT_FILE"),
             message := jstr "you set DOTENV_KEY but your .env.vault file is missing: "
               ++ filepath }
  | some src =>
    if DOTENV_KEY.length < 1 then
      .error { code := some (jstr "MISSING_DOTENV_KEY"),
               message := jstr "your DOTENV_KEY appears to be blank: '"
                 ++ DOTENV_KEY ++ jstr "'" }
    else
      vaultDecryptPhase ext overload DOTENV_KEY st row src

/-- run.js `run()` loop (lines 46-54): process the plan in order, dispatching
on the type tag; a throw from `_injectEnvVaultFile` propagates and aborts. -/
def runEnvs (ext : Ext) (overload : Bool) (DOTENV_KEY : JSStr) :
    List EnvDescriptor → St → Except ErrInfo St
  | [], st => .ok st
  | e :: rest, st =>
    match e.type with
    | .envVaultFile =>
      match injectEnvVaultFile ext overload DOTENV_KEY st e.value with
      | .error err => .error err
      | .ok st' => runEnvs ext overload DOTENV_KEY rest st'
    | .envFile => runEnvs ext overload DOTENV_KEY rest (injectEnvFile ext overload st e.value)
    | .env => runEnvs ext overload DOTENV_KEY rest (injectEnv ext overload st e.value)

/-- The Run Report (run.js lines 56-61). -/
structure Report where
  processedEnvs : List Row
  readableStrings : List JSStr
  readableFilepaths : List JSStr
  uniqueInjectedKeys : List JSStr
deriving DecidableEq, Repr

/-- The constructor state of a fresh `Run`: empty accumulators over the given
ambient namespace (run.js lines 29-34). -/
def initSt (processEnv : EnvMap) : St :=
  { processEnv := processEnv, processedEnvs := [], readableFilepaths := [],
    readableStrings := [], uniqueInjectedKeys := [] }

/-- `new Run(envs, overload, DOTENV_KEY, processEnv).run()`: build the plan
from the caller sources, the ambient private-key names and the master secret,
process it, and return the report together with the final target namespace
(which the JS mutates in place). -/
def runRun (ext : Ext) (envs : List EnvDescriptor) (overload : Bool)
    (DOTENV_KEY : JSStr) (processEnv : EnvMap) : Except ErrInfo (Report × EnvMap) :=
  let plan := determineEnvs ext (dotenvPrivateKeyNames processEnv) envs DOTENV_KEY
  match runEnvs ext overload DOTENV_KEY plan (initSt processEnv) with
  | .error e => .error e
  | .ok st =>
    .ok ({ processedEnvs := st.processedEnvs,
           readableStrings := st.readableStrings,
           readableFilepaths := st.readableFilepaths,
           uniqueInjectedKeys := st.uniqueInjectedKeys }, st.processEnv)

/-- helpers/truncate.js: `str.slice(0, showChar) + '…'`. -/
def truncate (str : JSStr) (showChar : Nat) : JSStr :=
  let visiblePart := str.take showChar
  visiblePart ++ jstr "…"

/-- helpers/truncate.js with the default argument `showChar = 7`. -/
def truncateD (str : JSStr) : JSStr := truncate str 7

/-! ## Concrete oracle fixtures used to evaluate the model on closed inputs -/

/-- A concrete oracle: a filesystem with a plaintext `.env`, a vault container
`.env.vault` and a malformed `.env.bad`; a parser that fails exactly on the
content `BAD` and otherwise yields `HELLO=world`; a decryptor that always
fails, reporting the attempted key as its message. -/
def extW : Ext where
  fsRead := fun p =>
    if p = jstr ".env" then some (jstr "HELLO=world")
    else if p = jstr ".env.vault" then some (jstr "vaultsrc")
    else if p = jstr ".env.bad" then some (jstr "BAD")
    else none
  resolve := id
  parseDecryptEvalExpand := fun s _ _ =>
    if s = jstr "BAD" then .error { code := some (jstr "PARSE_FAIL"), message := jstr "bad" }
    else .ok ([(jstr "HELLO", jstr "world")], [])
  decrypt := fun _ k => .error { code := some (jstr "DECRYPTION_FAILED"), message := k }
  parseEnvironmentFromDotenvKey := fun _ => .ok (jstr "prod")
  dotenvParse := fun _ => [(jstr "DOTENV_VAULT_PROD", jstr "cipher")]
  determinePrivateKey := fun _ => none
  guessPrivateKeyFilename := id

/-- `extW` with a decryptor that always succeeds. -/
def extG : Ext :=
  { extW with decrypt := fun _ _ => .ok (jstr "PLAIN") }

/-- The fresh state over an empty ambient namespace. -/
def st0 : St := initSt []

/-- The report produced by running `extW` on the single source
`File(".env")` over an empty ambient namespace. -/
def row0 : Row :=
  { type := .envFile, filepath := some (jstr ".env"),
    parsed := some [(jstr "HELLO", jstr "world")], warnings := some [],
    injected := some [(jstr "HELLO", jstr "world")], preExisted := some [] }

def rep0 : Report :=
  { processedEnvs := [row0],
    readableStrings := [], readableFilepaths := [jstr ".env"],
    uniqueInjectedKeys := [jstr "HELLO"] }

/-- The report produced by running `extW` on `File(".env")` over the ambient
namespace `{HELLO: "original"}` without overload: nothing is injected, the
pre-existing value is recorded. -/
def row2 : Row :=
  { type := .envFile, filepath := some (jstr ".env"),
    parsed := some [(jstr "HELLO", jstr "world")], warnings := some [],
    injected := some [], preExisted := some [(jstr "HELLO", jstr "original")] }

def rep2 : Report :=
  { processedEnvs := [row2],
    readableStrings := [], readableFilepaths := [jstr ".env"],
    uniqueInjectedKeys := [] }

/-- Invariant for C2 (`overload = false`, for a key `key` bound to `v` before
the run): the key still maps to `v` in the target namespace, and every
recorded row whose parsed mapping defines `key` carries it in `preExisted`
bound to `v`. -/
def InvPre (key v : JSStr) (st : St) : Prop :=
  lookup st.processEnv key = some v ∧
  ∀ row ∈ st.processedEnvs, ∀ parsed, row.parsed = some parsed →
    key ∈ parsed.map Prod.fst →
    ∃ pre, row.preExisted = some pre ∧ lookup pre key = some v

/-- Invariant for C6: the accumulated `uniqueInjectedKeys` is exactly the
union of the `injected` key sets over the recorded rows, with no duplicates. -/
def InvInj (st : St) : Prop :=
  (∀ k, k ∈ st.uniqueInjectedKeys ↔
    ∃ row ∈ st.processedEnvs, ∃ inj, row.injected = some inj ∧ k ∈ inj.map Prod.fst) ∧
  st.uniqueInjectedKeys.Nodup

/-! ## Basic lemmas about the JS-collection model -/

theorem addSet_mem (l : List JSStr) (x k : JSStr) :
    k ∈ addSet l x ↔ k ∈ l ∨ k = x := by
  unfold addSet
  by_cases h : x ∈ l
  · simp only [if_pos h]
    constructor
    · exact Or.inl
    · rintro (hk | rfl)
      · exact hk
      · exact h
  · simp [if_neg h]

theorem addSet_nodup (l : List JSStr) (x : JSStr) (h : l.Nodup) :
    (addSet l x).Nodup := by
  unfold addSet
  by_cases hx : x ∈ l
  · simpa [if_pos hx]
  · rw [if_neg hx]
    simp [List.nodup_append, h, hx]

theorem foldl_addSet_mem (l : List JSStr) :
    ∀ acc k, k ∈ List.foldl addSet acc l ↔ k ∈ acc ∨ k ∈ l := by
  induction l with
  | nil => simp
  | cons x rest ih =>
    intro acc k
    simp only [List.foldl_cons, ih, addSet_mem, List.mem_cons]
    tauto

theorem foldl_addSet_nodup (l : List JSStr) :
    ∀ acc, acc.Nodup → (List.foldl addSet acc l).Nodup := by
  induction l with
  | nil => intro acc h; simpa
  | cons x rest ih =>
    intro acc h
    exact ih (addSet acc x) (addSet_nodup acc x h)

theorem setKey_lookup_ne (t : EnvMap) (k' x key : JSStr) (h : k' ≠ key) :
    lookup (setKey t k' x) key = lookup t key := by
  induction t with
  | nil => simp [setKey, lookup, h]
  | cons p rest ih =>
    obtain ⟨a, b⟩ := p
    by_cases ha : a = k'
    · subst ha
      simp [setKey, lookup, h]
    · simp [setKey, lookup, ha, ih]

theorem inject_lookup_preserved (parsed : EnvMap) :
    ∀ t key v, lookup t key = some v →
      lookup (inject t parsed false).1 key = some v := by
  induction parsed with
  | nil => intro t key v h; simpa [inject]
  | cons p rest ih =>
    intro t key v h
    obtain ⟨k, x⟩ := p
    by_cases hk : k = key
    · subst hk
      simp only [inject, h]
      exact ih t k v h
    · cases hl : lookup t k with
      | none =>
        simp only [inject, hl]
        exact ih (setKey t k x) key v (by rw [setKey_lookup_ne t k x key hk]; exact h)
      | some old =>
        simp only [inject, hl, if_neg (Bool.false_ne_true)]
        exact ih t key v h

theorem inject_preExisted_lookup (parsed : EnvMap) :
    ∀ t key v, lookup t key = some v → key ∈ parsed.map Prod.fst →
      lookup (inject t parsed false).2.2 key = some v := by
  induction parsed with
  | nil => intro t key v _ hm; simp at hm
  | cons p rest ih =>
    intro t key v h hm
    obtain ⟨k, x⟩ := p
    by_cases hk : k = key
    · subst hk
      simp only [inject, h, if_neg (Bool.false_ne_true)]
      simp [lookup]
    · have hm' : key ∈ rest.map Prod.fst := by
        simp only [List.map_cons, List.mem_cons] at hm
        rcases hm with h1 | h2
        · exact absurd h1.symm hk
        · exact h2
      cases hl : lookup t k with
      | none =>
        simp only [inject, hl]
        exact ih (setKey t k x) key v (by rw [setKey_lookup_ne t k x key hk]; exact h) hm'
      | some old =>
        simp only [inject, hl, if_neg (Bool.false_ne_true)]
        simp only [lookup, if_neg hk]
        exact ih t key v h hm'

/-- The boolean `fileAlreadySpecified` scan of `_determineEnvs` (lines
218-230), characterized as a proposition. -/
theorem fileAlreadySpecified_iff (envs : List EnvDescriptor) (DK : JSStr) :
    (envs.any (fun e =>
      (decide (DK.length > 0) && decide (e.type = EnvType.envVaultFile)) ||
      (decide (DK.length ≤ 0) && decide (e.type = EnvType.envFile))) = true)
    ↔ ((DK ≠ [] ∧ ∃ e ∈ envs, e.type = EnvType.envVaultFile) ∨
       (DK = [] ∧ ∃ e ∈ envs, e.type = EnvType.envFile)) := by
  by_cases hDK : DK = []
  · subst hDK
    simp [List.any_eq_true]
  · have h1 : 0 < DK.length := List.length_pos.mpr hDK
    have h2 : ¬ DK.length ≤ 0 := by omega
    simp [List.any_eq_true, hDK, h1, h2]

/-- The rotation loop trims each key at its use site: it agrees with the
untrimmed loop run on the element-wise trimmed key list. -/
theorem tryKeys_eq_noTrim (ext : Ext) (pv : EnvMap) (keys : List JSStr) :
    tryKeys ext pv keys = tryKeysNoTrim ext pv (keys.map trimChars) := by
  induction keys with
  | nil => rfl
  | cons k rest ih =>
    cases rest with
    | nil => rfl
    | cons k2 rest' =>
      simp only [tryKeys, tryKeysNoTrim, List.map]
      cases decrypted ext (trimChars k) pv with
      | ok d => rfl
      | error e => simpa using ih

/-! ## Preservation of the uniqueInjectedKeys invariant -/

theorem invInj_of_fields (st st' : St)
    (hu : st'.uniqueInjectedKeys = st.uniqueInjectedKeys)
    (hr : st'.processedEnvs = st.processedEnvs) (h : InvInj st) : InvInj st' := by
  obtain ⟨h1, h2⟩ := h
  exact ⟨fun k => by rw [hu, hr]; exact h1 k, by rw [hu]; exact h2⟩

theorem invInj_append_error (st : St) (pe' : EnvMap) (rf rs : List JSStr) (row : Row)
    (hrow : row.injected = none) (h : InvInj st) :
    InvInj { processEnv := pe', processedEnvs := st.processedEnvs ++ [row],
             readableFilepaths := rf, readableStrings := rs,
             uniqueInjectedKeys := st.uniqueInjectedKeys } := by
  obtain ⟨h1, h2⟩ := h
  constructor
  · intro k
    show k ∈ st.uniqueInjectedKeys ↔ ∃ row' ∈ st.processedEnvs ++ [row],
      ∃ inj, row'.injected = some inj ∧ k ∈ inj.map Prod.fst
    rw [h1 k]
    constructor
    · rintro ⟨row', hr', rest⟩
      exact ⟨row', List.mem_append_left _ hr', rest⟩
    · rintro ⟨row', hr', inj, hinj, hkin⟩
      rcases List.mem_append.mp hr' with h' | h'
      · exact ⟨row', h', inj, hinj, hkin⟩
      · rw [List.mem_singleton] at h'
        subst h'
        rw [hrow] at hinj
        cases hinj
  · exact h2

theorem invInj_recordInject (st : St) (o : Bool) (row : Row) (parsed : EnvMap)
    (w : List JSStr) (h : InvInj st) : InvInj (recordInject st o row parsed w) := by
  obtain ⟨h1, h2⟩ := h
  constructor
  · intro k
    simp only [recordInject]
    rw [foldl_addSet_mem, h1 k]
    constructor
    · rintro (⟨row', hr', rest⟩ | hk)
      · exact ⟨row', List.mem_append_left _ hr', rest⟩
      · exact ⟨_, List.mem_append_right _ (List.mem_singleton.mpr rfl), _, rfl, hk⟩
    · rintro ⟨row', hr', inj, hinj, hkin⟩
      rcases List.mem_append.mp hr' with h' | h'
      · exact Or.inl ⟨row', h', inj, hinj, hkin⟩
      · rw [List.mem_singleton] at h'
        subst h'
        apply Or.inr
        have hj : (inject st.processEnv parsed o).2.1 = inj := by
          simpa using hinj
        rw [← hj] at hkin
        exact hkin
  · simp only [recordInject]
    exact foldl_addSet_nodup _ _ h2

theorem invInj_injectEnv (ext : Ext) (o : Bool) (st : St) (s : JSStr)
    (h : InvInj st) : InvInj (injectEnv ext o st s) := by
  cases hp : ext.parseDecryptEvalExpand s none st.processEnv with
  | error e =>
    simp only [injectEnv, hp]
    exact invInj_append_error st _ _ _ _ rfl h
  | ok pw =>
    obtain ⟨parsed, w⟩ := pw
    simp only [injectEnv, hp]
    exact invInj_recordInject _ _ _ _ _ (invInj_of_fields st _ rfl rfl h)

theorem invInj_injectEnvFile (ext : Ext) (o : Bool) (st : St) (p : JSStr)
    (h : InvInj st) : InvInj (injectEnvFile ext o st p) := by
  cases hf : ext.fsRead (ext.resolve p) with
  | none =>
    simp only [injectEnvFile, hf]
    exact invInj_append_error st _ _ _ _ rfl h
  | some src =>
    cases hp : ext.parseDecryptEvalExpand src (ext.determinePrivateKey p) st.processEnv with
    | error e =>
      simp only [injectEnvFile, hf, hp]
      exact invInj_append_error st _ _ _ _ rfl h
    | ok pw =>
      obtain ⟨parsed, w⟩ := pw
      simp only [injectEnvFile, hf, hp]
      exact invInj_recordInject _ _ _ _ _ (invInj_of_fields st _ rfl rfl h)

theorem invInj_injectEnvVaultFile (ext : Ext) (o : Bool) (DK : JSStr) (st : St)
    (p : JSStr) (st' : St) (hok : injectEnvVaultFile ext o DK st p = .ok st')
    (h : InvInj st) : InvInj st' := by
  unfold injectEnvVaultFile at hok
  cases hf : ext.fsRead (ext.resolve p) with
  | none =>
    simp only [hf] at hok
    exact Except.noConfusion hok
  | some src =>
    simp only [hf] at hok
    by_cases hb : DK.length < 1
    · rw [if_pos hb] at hok
      exact Except.noConfusion hok
    · simp only [if_neg hb, vaultDecryptPhase] at hok
      cases ht : tryKeys ext (ext.dotenvParse src) (dotenvKeys DK) with
      | error e =>
        simp only [ht] at hok
        exact Except.noConfusion hok
      | ok d =>
        simp only [ht] at hok
        cases hp : ext.parseDecryptEvalExpand d none st.processEnv with
        | error e =>
          simp only [hp, Except.ok.injEq] at hok
          rw [← hok]
          exact invInj_append_error st _ _ _ _ rfl h
        | ok pw =>
          obtain ⟨parsed, w⟩ := pw
          simp only [hp, Except.ok.injEq] at hok
          rw [← hok]
          exact invInj_recordInject _ _ _ _ _ (invInj_of_fields st _ rfl rfl h)

theorem invInj_runEnvs (ext : Ext) (o : Bool) (DK : JSStr) :
    ∀ (plan : List EnvDescriptor) (st st' : St),
      runEnvs ext o DK plan st = .ok st' → InvInj st → InvInj st' := by
  intro plan
  induction plan with
  | nil =>
    intro st st' h hi
    simp only [runEnvs, Except.ok.injEq] at h
    rw [← h]
    exact hi
  | cons e rest ih =>
    intro st st' h hi
    obtain ⟨ty, val⟩ := e
    cases ty with
    | env =>
      simp only [runEnvs] at h
      exact ih _ _ h (invInj_injectEnv ext o st val hi)
    | envFile =>
      simp only [runEnvs] at h
      exact ih _ _ h (invInj_injectEnvFile ext o st val hi)
    | envVaultFile =>
      simp only [runEnvs] at h
      cases hv : injectEnvVaultFile ext o DK st val with
      | error err => simp [hv] at h
      | ok st'' =>
        simp only [hv] at h
        exact ih _ _ h (invInj_injectEnvVaultFile ext o DK st val st'' hv hi)

/-- Unfolding of a successful `runRun` into the underlying `runEnvs` result. -/
theorem runRun_ok (ext : Ext) (envs : List EnvDescriptor) (o : Bool) (DK : JSStr)
    (pe : EnvMap) (r : Report) (env' : EnvMap)
    (h : runRun ext envs o DK pe = .ok (r, env')) :
    ∃ stF, runEnvs ext o DK (determineEnvs ext (dotenvPrivateKeyNames pe) envs DK)
        (initSt pe) = .ok stF ∧
      r.processedEnvs = stF.processedEnvs ∧
      r.readableStrings = stF.readableStrings ∧
      r.readableFilepaths = stF.readableFilepaths ∧
      r.uniqueInjectedKeys = stF.uniqueInjectedKeys ∧
      env' = stF.processEnv := by
  unfold runRun at h
  cases hr : runEnvs ext o DK (determineEnvs ext (dotenvPrivateKeyNames pe) envs DK)
      (initSt pe) with
  | error e => simp [hr] at h
  | ok stF =>
    refine ⟨stF, rfl, ?_⟩
    simp only [hr, Except.ok.injEq, Prod.mk.injEq] at h
    obtain ⟨hA, hB⟩ := h
    rw [← hA, ← hB]
    simp

/-! ## Effect of each handler on readableFilepaths -/

theorem readable_injectEnv (ext : Ext) (o : Bool) (st : St) (s : JSStr) :
    (injectEnv ext o st s).readableFilepaths = st.readableFilepaths := by
  cases hp : ext.parseDecryptEvalExpand s none st.processEnv with
  | error e => simp [injectEnv, hp]
  | ok pw =>
    obtain ⟨parsed, w⟩ := pw
    simp [injectEnv, hp, recordInject]

theorem readable_injectEnvFile (ext : Ext) (o : Bool) (st : St) (p p' : JSStr) :
    p' ∈ (injectEnvFile ext o st p).readableFilepaths ↔
      p' ∈ st.readableFilepaths ∨
        (p' = p ∧ (ext.fsRead (ext.resolve p)).isSome) := by
  cases hf : ext.fsRead (ext.resolve p) with
  | none => simp [injectEnvFile, hf]
  | some src =>
    cases hp : ext.parseDecryptEvalExpand src (ext.determinePrivateKey p) st.processEnv with
    | error e => simp [injectEnvFile, hf, hp, addSet_mem]
    | ok pw =>
      obtain ⟨parsed, w⟩ := pw
      simp [injectEnvFile, hf, hp, recordInject, addSet_mem]

theorem readable_injectEnvVaultFile (ext : Ext) (o : Bool) (DK : JSStr) (st : St)
    (p : JSStr) (st' : St) (hok : injectEnvVaultFile ext o DK st p = .ok st') :
    (ext.fsRead (ext.resolve p)).isSome = true ∧
    ∀ p', p' ∈ st'.readableFilepaths ↔ p' ∈ st.readableFilepaths ∨ p' = p := by
  unfold injectEnvVaultFile at hok
  cases hf : ext.fsRead (ext.resolve p) with
  | none =>
    simp only [hf] at hok
    exact Except.noConfusion hok
  | some src =>
    refine ⟨by simp [hf], ?_⟩
    simp only [hf] at hok
    by_cases hb : DK.length < 1
    · rw [if_pos hb] at hok
      exact Except.noConfusion hok
    · simp only [if_neg hb, vaultDecryptPhase] at hok
      cases ht : tryKeys ext (ext.dotenvParse src) (dotenvKeys DK) with
      | error e =>
        simp only [ht] at hok
        exact Except.noConfusion hok
      | ok d =>
        simp only [ht] at hok
        cases hp : ext.parseDecryptEvalExpand d none st.processEnv with
        | error e =>
          simp only [hp, Except.ok.injEq] at hok
          rw [← hok]
          intro p'
          simp [addSet_mem]
        | ok pw =>
          obtain ⟨parsed, w⟩ := pw
          simp only [hp, Except.ok.injEq] at hok
          rw [← hok]
          intro p'
          simp [recordInject, addSet_mem]

theorem readable_runEnvs (ext : Ext) (o : Bool) (DK : JSStr) :
    ∀ (plan : List EnvDescriptor) (st st' : St),
      runEnvs ext o DK plan st = .ok st' →
      ∀ p', p' ∈ st'.readableFilepaths ↔ p' ∈ st.readableFilepaths ∨
        ∃ e ∈ plan, (e.type = EnvType.envFile ∨ e.type = EnvType.envVaultFile) ∧
          e.value = p' ∧ (ext.fsRead (ext.resolve p')).isSome := by
  intro plan
  induction plan with
  | nil =>
    intro st st' h p'
    simp only [runEnvs, Except.ok.injEq] at h
    rw [← h]
    simp
  | cons e rest ih =>
    intro st st' h p'
    obtain ⟨ty, val⟩ := e
    cases ty with
    | env =>
      simp only [runEnvs] at h
      rw [ih _ _ h p', readable_injectEnv]
      simp only [List.mem_cons, exists_eq_or_imp]
      simp
    | envFile =>
      simp only [runEnvs] at h
      rw [ih _ _ h p', readable_injectEnvFile]
      simp only [List.mem_cons, exists_eq_or_imp]
      constructor
      · rintro ((h1 | ⟨rfl, h2⟩) | h3)
        · exact Or.inl h1
        · exact Or.inr (Or.inl ⟨Or.inl trivial, rfl, h2⟩)
        · exact Or.inr (Or.inr h3)
      · rintro (h1 | ⟨_, rfl, h2⟩ | h3)
        · exact Or.inl (Or.inl h1)
        · exact Or.inl (Or.inr ⟨rfl, h2⟩)
        · exact Or.inr h3
    | envVaultFile =>
      simp only [runEnvs] at h
      cases hv : injectEnvVaultFile ext o DK st val with
      | error err =>
        simp only [hv] at h
        exact Except.noConfusion h
      | ok st'' =>
        simp only [hv] at h
        obtain ⟨hS, hmem⟩ := readable_injectEnvVaultFile ext o DK st val st'' hv
        rw [ih _ _ h p', hmem p']
        simp only [List.mem_cons, exists_eq_or_imp]
        constructor
        · rintro ((h1 | rfl) | h3)
          · exact Or.inl h1
          · exact Or.inr (Or.inl ⟨Or.inr trivial, rfl, hS⟩)
          · exact Or.inr (Or.inr h3)
        · rintro (h1 | ⟨_, rfl, _⟩ | h3)
          · exact Or.inl (Or.inl h1)
          · exact Or.inl (Or.inr rfl)
          · exact Or.inr h3

/-! ## Preservation of the no-overload frame invariant -/

theorem invPre_of_fields (key v : JSStr) (st st' : St)
    (hp : st'.processEnv = st.processEnv) (hr : st'.processedEnvs = st.processedEnvs)
    (h : InvPre key v st) : InvPre key v st' := by
  obtain ⟨h1, h2⟩ := h
  exact ⟨by rw [hp]; exact h1, by rw [hr]; exact h2⟩

theorem invPre_append_error (key v : JSStr) (st : St) (rf rs u : List JSStr) (row : Row)
    (hrow : row.parsed = none) (h : InvPre key v st) :
    InvPre key v { processEnv := st.processEnv, processedEnvs := st.processedEnvs ++ [row],
                   readableFilepaths := rf, readableStrings := rs,
                   uniqueInjectedKeys := u } := by
  obtain ⟨h1, h2⟩ := h
  refine ⟨h1, ?_⟩
  intro row' hr'
  rcases List.mem_append.mp hr' with hm | hm
  · exact h2 row' hm
  · rw [List.mem_singleton] at hm
    subst hm
    intro parsed hp'
    rw [hrow] at hp'
    cases hp'

theorem invPre_recordInject (key v : JSStr) (st : St) (row : Row) (parsed : EnvMap)
    (w : List JSStr) (h : InvPre key v st) :
    InvPre key v (recordInject st false row parsed w) := by
  obtain ⟨h1, h2⟩ := h
  constructor
  · show lookup (inject st.processEnv parsed false).1 key = some v
    exact inject_lookup_preserved parsed st.processEnv key v h1
  · intro row' hr'
    have hr'' : row' ∈ st.processedEnvs ++
        [{ row with parsed := some parsed, warnings := some w,
                    injected := some (inject st.processEnv parsed false).2.1,
                    preExisted := some (inject st.processEnv parsed false).2.2 }] := hr'
    rcases List.mem_append.mp hr'' with hm | hm
    · exact h2 row' hm
    · rw [List.mem_singleton] at hm
      subst hm
      intro parsed' hp' hk
      refine ⟨(inject st.processEnv parsed false).2.2, rfl, ?_⟩
      have hpp : parsed' = parsed := by
        simpa using hp'.symm
      rw [hpp] at hk
      exact inject_preExisted_lookup parsed st.processEnv key v h1 hk

theorem invPre_injectEnv (ext : Ext) (st : St) (s key v : JSStr)
    (h : InvPre key v st) : InvPre key v (injectEnv ext false st s) := by
  cases hp : ext.parseDecryptEvalExpand s none st.processEnv with
  | error e =>
    simp only [injectEnv, hp]
    exact invPre_append_error key v st _ _ _ _ rfl h
  | ok pw =>
    obtain ⟨parsed, w⟩ := pw
    simp only [injectEnv, hp]
    exact invPre_recordInject key v _ _ _ _ (invPre_of_fields key v st _ rfl rfl h)

theorem invPre_injectEnvFile (ext : Ext) (st : St) (p key v : JSStr)
    (h : InvPre key v st) : InvPre key v (injectEnvFile ext false st p) := by
  cases hf : ext.fsRead (ext.resolve p) with
  | none =>
    simp only [injectEnvFile, hf]
    exact invPre_append_error key v st _ _ _ _ rfl h
  | some src =>
    cases hp : ext.parseDecryptEvalExpand src (ext.determinePrivateKey p) st.processEnv with
    | error e =>
      simp only [injectEnvFile, hf, hp]
      exact invPre_append_error key v st _ _ _ _ rfl h
    | ok pw =>
      obtain ⟨parsed, w⟩ := pw
      simp only [injectEnvFile, hf, hp]
      exact invPre_recordInject key v _ _ _ _ (invPre_of_fields key v st _ rfl rfl h)

theorem invPre_injectEnvVaultFile (ext : Ext) (DK : JSStr) (st : St)
    (p key v : JSStr) (st' : St)
    (hok : injectEnvVaultFile ext false DK st p = .ok st')
    (h : InvPre key v st) : InvPre key v st' := by
  unfold injectEnvVaultFile at hok
  cases hf : ext.fsRead (ext.resolve p) with
  | none =>
    simp only [hf] at hok
    exact Except.noConfusion hok
  | some src =>
    simp only [hf] at hok
    by_cases hb : DK.length < 1
    · rw [if_pos hb] at hok
      exact Except.noConfusion hok
    · simp only [if_neg hb, vaultDecryptPhase] at hok
      cases ht : tryKeys ext (ext.dotenvParse src) (dotenvKeys DK) with
      | error e =>
        simp only [ht] at hok
        exact Except.noConfusion hok
      | ok d =>
        simp only [ht] at hok
        cases hp : ext.parseDecryptEvalExpand d none st.processEnv with
        | error e =>
          simp only [hp, Except.ok.injEq] at hok
          rw [← hok]
          exact invPre_append_error key v st _ _ _ _ rfl h
        | ok pw =>
          obtain ⟨parsed, w⟩ := pw
          simp only [hp, Except.ok.injEq] at hok
          rw [← hok]
          exact invPre_recordInject key v _ _ _ _ (invPre_of_fields key v st _ rfl rfl h)

theorem invPre_runEnvs (ext : Ext) (DK key v : JSStr) :
    ∀ (plan : List EnvDescriptor) (st st' : St),
      runEnvs ext false DK plan st = .ok st' → InvPre key v st → InvPre key v st' := by
  intro plan
  induction plan with
  | nil =>
    intro st st' h hi
    simp only [runEnvs, Except.ok.injEq] at h
    rw [← h]
    exact hi
  | cons e rest ih =>
    intro st st' h hi
    obtain ⟨ty, val⟩ := e
    cases ty with
    | env =>
      simp only [runEnvs] at h
      exact ih _ _ h (invPre_injectEnv ext st val key v hi)
    | envFile =>
      simp only [runEnvs] at h
      exact ih _ _ h (invPre_injectEnvFile ext st val key v hi)
    | envVaultFile =>
      simp only [runEnvs] at h
      cases hv : injectEnvVaultFile ext false DK st val with
      | error err =>
        simp only [hv] at h
        exact Except.noConfusion h
      | ok st'' =>
        simp only [hv] at h
        exact ih _ _ h (invPre_injectEnvVaultFile ext DK st val key v st'' hv hi)

/-! ## Claim theorems -/

/-- C3: when processing reaches a vault-file source, a missing vault file
makes the whole run fail with the distinct `MISSING_ENV_VAULT_FILE` error,
and a present vault file with a blank master secret makes it fail immediately
with the distinct `MISSING_DOTENV_KEY` error — in both cases the error is
thrown (the run aborts with it), not recorded on a per-source record. -/
theorem c3_vault_fatal_checks (ext : Ext) (o : Bool) (st : St) (p : JSStr)
    (rest : List EnvDescriptor) (DK : JSStr) :
    (ext.fsRead (ext.resolve p) = none →
      runEnvs ext o DK ({ type := .envVaultFile, value := p } :: rest) st =
        .error { code := some (jstr "MISSING_ENV_VAULT_FILE"),
                 message := jstr "you set DOTENV_KEY but your .env.vault file is missing: "
                   ++ ext.resolve p }) ∧
    (∀ src, ext.fsRead (ext.resolve p) = some src → DK = [] →
      runEnvs ext o DK ({ type := .envVaultFile, value := p } :: rest) st =
        .error { code := some (jstr "MISSING_DOTENV_KEY"),
                 message := jstr "your DOTENV_KEY appears to be blank: '"
                   ++ DK ++ jstr "'" }) := by
  constructor
  · intro hf
    simp [runEnvs, injectEnvVaultFile, hf]
  · intro src hf hDK
    subst hDK
    simp [runEnvs, injectEnvVaultFile, hf]

/-- C3 witness: with the concrete oracle `extW`, a missing `missing.vault`
aborts the run with `MISSING_ENV_VAULT_FILE`, and a present `.env.vault` with
a blank master secret aborts it with `MISSING_DOTENV_KEY`. -/
theorem c3_vault_fatal_checks_witness :
    runEnvs extW false [] ({ type := .envVaultFile, value := jstr "missing.vault" } :: []) st0 =
      .error { code := some (jstr "MISSING_ENV_VAULT_FILE"),
               message := jstr "you set DOTENV_KEY but your .env.vault file is missing: "
                 ++ extW.resolve (jstr "missing.vault") } ∧
    runEnvs extW false [] ({ type := .envVaultFile, value := jstr ".env.vault" } :: []) st0 =
      .error { code := some (jstr "MISSING_DOTENV_KEY"),
               message := jstr "your DOTENV_KEY appears to be blank: '" ++ [] ++ jstr "'" } :=
  ⟨(c3_vault_fatal_checks extW false st0 (jstr "missing.vault") [] []).1 rfl,
   (c3_vault_fatal_checks extW false st0 (jstr ".env.vault") [] []).2
     (jstr "vaultsrc") rfl rfl⟩

/-- C9: the blank-master-secret check tests only for length zero, so a
whitespace-only secret passes it — the handler proceeds past both presence
checks straight to the rotation phase, never raising `MISSING_DOTENV_KEY` —
and there the secret is split on commas (`dotenvKeys = splitComma`) with each
resulting key individually trimmed before being handed to decryption. -/
theorem c9_whitespace_secret (ext : Ext) (o : Bool) (st : St) (p src s : JSStr)
    (hw : s.all Char.isWhitespace) (hne : s ≠ [])
    (hf : ext.fsRead (ext.resolve p) = some src) :
    injectEnvVaultFile ext o s st p =
      vaultDecryptPhase ext o s
        { st with readableFilepaths := addSet st.readableFilepaths p }
        { type := .envVaultFile, filepath := some p } src ∧
    (∀ pv keys, tryKeys ext pv keys = tryKeysNoTrim ext pv (keys.map trimChars)) ∧
    (∀ pv, tryKeys ext pv (dotenvKeys s) =
      tryKeysNoTrim ext pv ((splitComma s).map trimChars)) := by
  refine ⟨?_, fun pv keys => tryKeys_eq_noTrim ext pv keys,
    fun pv => tryKeys_eq_noTrim ext pv (splitComma s)⟩
  have hlen : ¬ s.length < 1 := by
    have := List.length_pos.mpr hne
    omega
  simp [injectEnvVaultFile, hf, hlen]

/-- C9 witness: the theorem applied to the single-space secret `" "` with the
concrete oracle `extW`; the attempted key list is `[""]` (split, then
trimmed). -/
theorem c9_whitespace_secret_witness :
    (jstr " ").all Char.isWhitespace = true ∧
    injectEnvVaultFile extW false (jstr " ") st0 (jstr ".env.vault") =
      vaultDecryptPhase extW false (jstr " ")
        { st0 with readableFilepaths := addSet st0.readableFilepaths (jstr ".env.vault") }
        { type := .envVaultFile, filepath := some (jstr ".env.vault") } (jstr "vaultsrc") :=
  ⟨by decide,
   (c9_whitespace_secret extW false st0 (jstr ".env.vault") (jstr "vaultsrc")
     (jstr " ") (by decide) (by decide) rfl).1⟩

/-- C1 (amended): for a vault source whose file exists and whose master
secret is non-empty, the comma-separated rotation keys are attempted in
order — every key before the first success fails, and the first key that both
matches a vault entry and decrypts successfully wins — but when every key
fails, the error of the last attempt is *thrown*, aborting the whole run,
rather than being recorded on this source's record with the run proceeding. -/
theorem c1_rotation_last_error_aborts (ext : Ext) :
    (∀ (o : Bool) (DK : JSStr) (st : St) (p src : JSStr)
        (rest : List EnvDescriptor) (e : ErrInfo),
      ext.fsRead (ext.resolve p) = some src → DK ≠ [] →
      tryKeys ext (ext.dotenvParse src) (dotenvKeys DK) = .error e →
      runEnvs ext o DK ({ type := .envVaultFile, value := p } :: rest) st = .error e) ∧
    (∀ (pv : EnvMap) (ks : List JSStr) (k : JSStr),
      (∀ k' ∈ ks ++ [k], ∃ er, decrypted ext (trimChars k') pv = .error er) →
      tryKeys ext pv (ks ++ [k]) = decrypted ext (trimChars k) pv) ∧
    (∀ (pv : EnvMap) (ks1 : List JSStr) (k : JSStr) (ks2 : List JSStr) (d : JSStr),
      (∀ k' ∈ ks1, ∃ er, decrypted ext (trimChars k') pv = .error er) →
      decrypted ext (trimChars k) pv = .ok d →
      tryKeys ext pv (ks1 ++ k :: ks2) = .ok d) := by
  refine ⟨?_, ?_, ?_⟩
  · intro o DK st p src rest e hf hDK htk
    have hlen : ¬ DK.length < 1 := by
      have := List.length_pos.mpr hDK
      omega
    simp [runEnvs, injectEnvVaultFile, hf, hlen, vaultDecryptPhase, htk]
  · intro pv ks
    induction ks with
    | nil =>
      intro k _
      rfl
    | cons a ks' ih =>
      intro k hall
      obtain ⟨er, her⟩ := hall a (by simp)
      have hrest : ∀ k' ∈ ks' ++ [k], ∃ er, decrypted ext (trimChars k') pv = .error er :=
        fun k' hk' => hall k' (by simp at hk' ⊢; tauto)
      cases ks' with
      | nil => simpa [tryKeys, her] using ih k hrest
      | cons b ks'' => simpa [tryKeys, her] using ih k hrest
  · intro pv ks1
    induction ks1 with
    | nil =>
      intro k ks2 d _ hok
      cases ks2 with
      | nil => simpa [tryKeys] using hok
      | cons b ks2' => simp [tryKeys, hok]
    | cons a ks1' ih =>
      intro k ks2 d hall hok
      obtain ⟨er, her⟩ := hall a (by simp)
      have hrest : ∀ k' ∈ ks1', ∃ er, decrypted ext (trimChars k') pv = .error er :=
        fun k' hk' => hall k' (by simp [hk'])
      cases hks : ks1' ++ k :: ks2 with
      | nil => simp at hks
      | cons b l =>
        have := ih k ks2 d hrest hok
        rw [hks] at this
        simp only [List.cons_append, hks, tryKeys, her]
        exact this

/-- C1 counterexample to the claim as stated: with the concrete oracle `extW`
(vault present, two rotation keys, decryption failing on both, reporting the
attempted key as message), the run does not record the failure and proceed —
it aborts with the last attempt's error, and no report is produced. -/
theorem c1_rotation_cex :
    runRun extW [{ type := .envVaultFile, value := jstr ".env.vault" },
                 { type := .env, value := jstr "A=1" }] false (jstr "k1,k2") [] =
      .error { code := some (jstr "DECRYPTION_FAILED"), message := jstr "k2" } ∧
    ∀ result, runRun extW [{ type := .envVaultFile, value := jstr ".env.vault" },
                 { type := .env, value := jstr "A=1" }] false (jstr "k1,k2") [] ≠
      .ok result := by
  refine ⟨rfl, ?_⟩
  intro result h
  rw [show runRun extW [{ type := .envVaultFile, value := jstr ".env.vault" },
      { type := .env, value := jstr "A=1" }] false (jstr "k1,k2") [] =
      .error { code := some (jstr "DECRYPTION_FAILED"), message := jstr "k2" } from rfl] at h
  cases h

/-- C1 witness: the amended theorem applied at the concrete oracles — `extW`
(both keys fail: the run aborts with the error of the second, last attempt)
and `extG` (first key succeeds). -/
theorem c1_rotation_last_error_aborts_witness :
    runEnvs extW false (jstr "k1,k2")
        ({ type := .envVaultFile, value := jstr ".env.vault" } :: []) st0 =
      .error { code := some (jstr "DECRYPTION_FAILED"), message := jstr "k2" } ∧
    tryKeys extG [(jstr "DOTENV_VAULT_PROD", jstr "cipher")]
        ([] ++ jstr "k1" :: [jstr "k2"]) = .ok (jstr "PLAIN") :=
  ⟨(c1_rotation_last_error_aborts extW).1 false (jstr "k1,k2") st0
      (jstr ".env.vault") (jstr "vaultsrc") []
      { code := some (jstr "DECRYPTION_FAILED"), message := jstr "k2" }
      rfl (by decide) rfl,
   (c1_rotation_last_error_aborts extG).2.2
      [(jstr "DOTENV_VAULT_PROD", jstr "cipher")] [] (jstr "k1") [jstr "k2"]
      (jstr "PLAIN")
      (by intro k' hk'; simp at hk')
      rfl⟩

/-- C7: a failing Inline or File source is recorded and skipped, never fatal:
a parse/expand failure on an inline source, a missing env file (recorded with
the distinguished `MISSING_ENV_FILE` code and a message carrying both the
given and the resolved path), and a parse/expand failure on a readable env
file each append one record carrying the error, after which the engine
continues with the remaining plan. -/
theorem c7_per_source_isolation (ext : Ext) (o : Bool) (DK : JSStr) (st : St)
    (rest : List EnvDescriptor) :
    (∀ s e, ext.parseDecryptEvalExpand s none st.processEnv = .error e →
      runEnvs ext o DK ({ type := .env, value := s } :: rest) st =
        runEnvs ext o DK rest
          { st with processedEnvs := st.processedEnvs ++
              [{ type := .env, string := some s, error := some e }] }) ∧
    (∀ p, ext.fsRead (ext.resolve p) = none →
      runEnvs ext o DK ({ type := .envFile, value := p } :: rest) st =
        runEnvs ext o DK rest
          { st with processedEnvs := st.processedEnvs ++
              [{ type := .envFile, filepath := some p,
                 error := some (missingEnvFileError p (ext.resolve p)) }] }) ∧
    (∀ p src e, ext.fsRead (ext.resolve p) = some src →
      ext.parseDecryptEvalExpand src (ext.determinePrivateKey p) st.processEnv = .error e →
      runEnvs ext o DK ({ type := .envFile, value := p } :: rest) st =
        runEnvs ext o DK rest
          { st with readableFilepaths := addSet st.readableFilepaths p,
                    processedEnvs := st.processedEnvs ++
                      [{ type := .envFile, filepath := some p, error := some e }] }) := by
  refine ⟨?_, ?_, ?_⟩
  · intro s e hp
    simp [runEnvs, injectEnv, hp]
  · intro p hf
    simp [runEnvs, injectEnvFile, hf]
  · intro p src e hf hp
    simp [runEnvs, injectEnvFile, hf, hp]

/-- C7 witness: with `extW`, the malformed inline source `"BAD"` and the
missing file `".env.missing"` are each recorded and the (empty) rest of the
plan still runs: both runs end normally with exactly the error record. -/
theorem c7_per_source_isolation_witness :
    runEnvs extW false [] ({ type := .env, value := jstr "BAD" } :: []) st0 =
      runEnvs extW false [] []
        { st0 with processedEnvs := st0.processedEnvs ++
            [{ type := .env, string := some (jstr "BAD"),
               error := some { code := some (jstr "PARSE_FAIL"), message := jstr "bad" } }] } ∧
    runEnvs extW false [] ({ type := .envFile, value := jstr ".env.missing" } :: []) st0 =
      runEnvs extW false [] []
        { st0 with processedEnvs := st0.processedEnvs ++
            [{ type := .envFile, filepath := some (jstr ".env.missing"),
               error := some (missingEnvFileError (jstr ".env.missing")
                 (extW.resolve (jstr ".env.missing"))) }] } :=
  ⟨(c7_per_source_isolation extW false [] st0 []).1 (jstr "BAD")
      { code := some (jstr "PARSE_FAIL"), message := jstr "bad" } rfl,
   (c7_per_source_isolation extW false [] st0 []).2.1 (jstr ".env.missing") rfl⟩

/-- C10: for every string `s` and count `n`, `truncate(s, n)` is the first
`min(n, |s|)` characters of `s` followed by the ellipsis character (the count
defaulting to 7), so the result always gains the ellipsis suffix.  Amended:
the result can coincide with `s` when `s` already ends with the ellipsis; it
differs from `s` whenever `s` does not end with `'…'`. -/
theorem c10_truncate (s : JSStr) (n : Nat) :
    truncate s n = s.take n ++ jstr "…" ∧
    (s.take n).length = min n s.length ∧
    (∃ t, s.take n ++ t = s) ∧
    (s.getLast? ≠ some '…' → truncate s n ≠ s) ∧
    truncateD s = truncate s 7 := by
  refine ⟨rfl, by simp, ⟨s.drop n, List.take_append_drop n s⟩, ?_, rfl⟩
  intro hlast heq
  apply hlast
  rw [← heq]
  show (truncate s n).getLast? = some '…'
  show (s.take n ++ ['…']).getLast? = some '…'
  simp

/-- C10 counterexample to the claim as stated: at the default count 7 the
input `"abcdefg…"` is a fixed point of `truncate`, so the result *can* equal
the input, contradicting "the result is never equal to s". -/
theorem c10_truncate_cex :
    truncateD (jstr "abcdefg…") = jstr "abcdefg…" := by decide

/-- C10 witness: the amended theorem applied at `s = "hello"`, `n = 2`. -/
theorem c10_truncate_witness :
    (jstr "hello").getLast? ≠ some '…' ∧ truncate (jstr "hello") 2 ≠ jstr "hello" :=
  ⟨by decide, (c10_truncate (jstr "hello") 2).2.2.2.1 (by decide)⟩

/-- C4: with no caller-supplied sources and no ambient name starting with
`DOTENV_PRIVATE_KEY`, the built plan is exactly `[File(".env")]` when the
master secret is empty and exactly `[VaultFile(".env.vault")]` when it is
non-empty. -/
theorem c4_default_plan (ext : Ext) (pe : EnvMap) (DK : JSStr)
    (h : dotenvPrivateKeyNames pe = []) :
    (DK = [] →
      determineEnvs ext (dotenvPrivateKeyNames pe) [] DK =
        [{ type := .envFile, value := jstr ".env" }]) ∧
    (DK ≠ [] →
      determineEnvs ext (dotenvPrivateKeyNames pe) [] DK =
        [{ type := .envVaultFile, value := jstr ".env.vault" }]) := by
  rw [h]
  constructor
  · intro hDK
    subst hDK
    simp [determineEnvs, DEFAULT_ENVS]
  · intro hDK
    have h1 : 0 < DK.length := List.length_pos.mpr hDK
    simp [determineEnvs, DEFAULT_ENV_VAULTS, h1]

/-- C4 witness: with ambient `{HELLO: "world"}` (no private-key names), the
default plans for an empty and a non-empty master secret. -/
theorem c4_default_plan_witness :
    dotenvPrivateKeyNames [(jstr "HELLO", jstr "world")] = [] ∧
    determineEnvs extW (dotenvPrivateKeyNames [(jstr "HELLO", jstr "world")]) [] [] =
      [{ type := .envFile, value := jstr ".env" }] :=
  ⟨by decide, (c4_default_plan extW [(jstr "HELLO", jstr "world")] [] (by decide)).1 rfl⟩

/-- C5: for a non-empty caller source list the builder returns the list
unchanged when it already contains a `VaultFile` entry and the master secret
is non-empty, or a `File` entry and the master secret is empty; otherwise it
prepends exactly one default descriptor (`VaultFile(".env.vault")` for a
non-empty secret, else `File(".env")`).  In either case the caller entries
are kept intact, in order, with nothing removed or appended. -/
theorem c5_plan_preserves_caller (ext : Ext) (names : List JSStr)
    (envs : List EnvDescriptor) (DK : JSStr) (h : envs ≠ []) :
    (((DK ≠ [] ∧ ∃ e ∈ envs, e.type = EnvType.envVaultFile) ∨
      (DK = [] ∧ ∃ e ∈ envs, e.type = EnvType.envFile)) →
      determineEnvs ext names envs DK = envs) ∧
    (¬ ((DK ≠ [] ∧ ∃ e ∈ envs, e.type = EnvType.envVaultFile) ∨
        (DK = [] ∧ ∃ e ∈ envs, e.type = EnvType.envFile)) →
      determineEnvs ext names envs DK =
        (if DK = [] then ({ type := .envFile, value := jstr ".env" } : EnvDescriptor)
         else { type := .envVaultFile, value := jstr ".env.vault" }) :: envs) := by
  have hlen : ¬ envs.length ≤ 0 := by
    have := List.length_pos.mpr h
    omega
  constructor
  · intro hs
    have hb := (fileAlreadySpecified_iff envs DK).mpr hs
    simp only [determineEnvs, if_neg hlen, hb, if_pos]
  · intro hs
    have hb : (envs.any (fun e =>
        (decide (DK.length > 0) && decide (e.type = EnvType.envVaultFile)) ||
        (decide (DK.length ≤ 0) && decide (e.type = EnvType.envFile))) = false) := by
      rw [← Bool.not_eq_true]
      exact fun hc => hs ((fileAlreadySpecified_iff envs DK).mp hc)
    by_cases hDK : DK = []
    · subst hDK
      have h3 : ¬ ∃ e ∈ envs, e.type = EnvType.envFile := fun hc => hs (Or.inr ⟨rfl, hc⟩)
      simp [determineEnvs, if_neg hlen, hb, DEFAULT_ENVS, h, h3]
    · have h1 : 0 < DK.length := List.length_pos.mpr hDK
      have h3 : ¬ ∃ e ∈ envs, e.type = EnvType.envVaultFile :=
        fun hc => hs (Or.inl ⟨hDK, hc⟩)
      simp [determineEnvs, if_neg hlen, hb, h1, hDK, DEFAULT_ENV_VAULTS, h, h3]

/-- C5 witness: a caller plan with one inline source and no master secret gets
`File(".env")` prepended; the caller entry is preserved. -/
theorem c5_plan_preserves_caller_witness :
    determineEnvs extW [] [{ type := .env, value := jstr "A=1" }] [] =
      [{ type := .envFile, value := jstr ".env" },
       { type := .env, value := jstr "A=1" }] := by
  have h := (c5_plan_preserves_caller extW [] [{ type := .env, value := jstr "A=1" }] []
    (by decide)).2 (by decide)
  simpa using h

/-- C6: for every completed run, `uniqueInjectedKeys` of the report is
exactly the union, over all Processed-Source Records, of the key sets of the
records' injected mappings, with every key counted once (no duplicates), so a
key injected by one source and merely recorded as pre-existing by a later one
appears exactly once. -/
theorem c6_unique_injected_union (ext : Ext) (envs : List EnvDescriptor) (o : Bool)
    (DK : JSStr) (pe : EnvMap) (r : Report) (env' : EnvMap)
    (hrun : runRun ext envs o DK pe = .ok (r, env')) :
    (∀ k, k ∈ r.uniqueInjectedKeys ↔
      ∃ row ∈ r.processedEnvs, ∃ inj, row.injected = some inj ∧ k ∈ inj.map Prod.fst) ∧
    r.uniqueInjectedKeys.Nodup := by
  obtain ⟨stF, hre, hpe, _, _, hu, _⟩ := runRun_ok ext envs o DK pe r env' hrun
  have hinv : InvInj stF :=
    invInj_runEnvs ext o DK _ _ _ hre ⟨by simp [initSt], by simp [initSt]⟩
  obtain ⟨h1, h2⟩ := hinv
  constructor
  · intro k
    rw [hu, hpe]
    exact h1 k
  · rw [hu]
    exact h2

/-- C6 witness: the theorem applied to the completed run of `extW` on
`[File(".env")]` over an empty ambient namespace, whose report is `rep0`. -/
theorem c6_unique_injected_union_witness :
    (∀ k, k ∈ rep0.uniqueInjectedKeys ↔
      ∃ row ∈ rep0.processedEnvs, ∃ inj, row.injected = some inj ∧ k ∈ inj.map Prod.fst) ∧
    rep0.uniqueInjectedKeys.Nodup :=
  c6_unique_injected_union extW [{ type := .envFile, value := jstr ".env" }] false [] []
    rep0 [(jstr "HELLO", jstr "world")] (by rfl)

/-- C8: for every completed run, the report's `readableFilepaths` holds
exactly the file paths of the plan's File and VaultFile sources whose files
could be read: a path is a member iff some File or VaultFile descriptor of
the built plan names it and the file system yields content for it — in
particular a missing file's path is not a member. -/
theorem c8_readable_filepaths (ext : Ext) (envs : List EnvDescriptor) (o : Bool)
    (DK : JSStr) (pe : EnvMap) (r : Report) (env' : EnvMap)
    (hrun : runRun ext envs o DK pe = .ok (r, env')) :
    ∀ p, p ∈ r.readableFilepaths ↔
      ∃ e ∈ determineEnvs ext (dotenvPrivateKeyNames pe) envs DK,
        (e.type = EnvType.envFile ∨ e.type = EnvType.envVaultFile) ∧
        e.value = p ∧ (ext.fsRead (ext.resolve p)).isSome := by
  obtain ⟨stF, hre, _, _, hrf, _, _⟩ := runRun_ok ext envs o DK pe r env' hrun
  intro p
  rw [hrf, readable_runEnvs ext o DK _ _ _ hre p]
  simp [initSt]

/-- C8 witness: the theorem applied to the completed run of `extW` on the
plan `[File(".env")]` over an empty ambient namespace: `.env` was readable
and is the only member. -/
theorem c8_readable_filepaths_witness :
    jstr ".env" ∈ rep0.readableFilepaths ↔
      ∃ e ∈ determineEnvs extW (dotenvPrivateKeyNames [])
          [{ type := .envFile, value := jstr ".env" }] [],
        (e.type = EnvType.envFile ∨ e.type = EnvType.envVaultFile) ∧
        e.value = jstr ".env" ∧ (extW.fsRead (extW.resolve (jstr ".env"))).isSome :=
  c8_readable_filepaths extW [{ type := .envFile, value := jstr ".env" }] false [] []
    rep0 [(jstr "HELLO", jstr "world")] (by rfl) (jstr ".env")

/-- C2: for every run with `overload = false` and every key bound in the
ambient namespace before the run, the key's value in the target namespace
after the run equals its original value, and on the record of every source
whose parsed mapping also defines that key, the key appears in `preExisted`
bound to that existing value. -/
theorem c2_no_overload_frame (ext : Ext) (envs : List EnvDescriptor) (DK : JSStr)
    (pe : EnvMap) (key v : JSStr) (r : Report) (env' : EnvMap)
    (hkey : lookup pe key = some v)
    (hrun : runRun ext envs false DK pe = .ok (r, env')) :
    lookup env' key = some v ∧
    ∀ row ∈ r.processedEnvs, ∀ parsed, row.parsed = some parsed →
      key ∈ parsed.map Prod.fst →
      ∃ pre, row.preExisted = some pre ∧ lookup pre key = some v := by
  obtain ⟨stF, hre, hpe, _, _, _, henv⟩ := runRun_ok ext envs false DK pe r env' hrun
  have hinv : InvPre key v stF :=
    invPre_runEnvs ext DK key v _ _ _ hre
      ⟨by simpa [initSt] using hkey, by simp [initSt]⟩
  obtain ⟨h1, h2⟩ := hinv
  constructor
  · rw [henv]
    exact h1
  · intro row hrw parsed hp hk
    rw [hpe] at hrw
    exact h2 row hrw parsed hp hk

/-- C2 witness: the theorem applied to the run of `extW` on `[File(".env")]`
over ambient `{HELLO: "original"}` with `overload = false`; the file defines
`HELLO`, the namespace keeps `"original"` and the record's `preExisted` binds
`HELLO` to `"original"` (report `rep2`). -/
theorem c2_no_overload_frame_witness :
    lookup [(jstr "HELLO", jstr "original")] (jstr "HELLO") = some (jstr "original") ∧
    (lookup [(jstr "HELLO", jstr "original")] (jstr "HELLO") = some (jstr "original") ∧
     ∀ row ∈ rep2.processedEnvs, ∀ parsed, row.parsed = some parsed →
       jstr "HELLO" ∈ parsed.map Prod.fst →
       ∃ pre, row.preExisted = some pre ∧
         lookup pre (jstr "HELLO") = some (jstr "original")) :=
  ⟨rfl, c2_no_overload_frame extW [{ type := .envFile, value := jstr ".env" }] []
    [(jstr "HELLO", jstr "original")] (jstr "HELLO") (jstr "original") rep2
    [(jstr "HELLO", jstr "original")] rfl (by rfl)⟩

end Dx
